import Mathlib

/-
Verification of calibre2jellyfin.py against its specification.

The Python source is shallowly embedded below: pure string helpers become
Lean functions on String / List Char, path construction becomes functions on
List String (path segments), and the filesystem-effecting sync steps become
explicit state transitions on small structures, with the performed writes
collected in a list.  Fallible operations are modelled with Except / explicit
failure outcomes.
-/

namespace C2J

/- ----------------------------------------------------------------
   sanitize_filename  (calibre2jellyfin.py lines 790-819)

   Three successive regex substitutions:
     1. every char of  /\?%*:|"<> , 0x7F and 0x00-0x1F  becomes '-'
     2. an optional leading space, a reserved Windows device name
        (case-insensitively), followed by '.', ' ' or end of string,
        is replaced as a whole by a single '-'
     3. a leading ' ' is replaced by '-', and a trailing '.' or ' '
        is replaced by '-'
   ---------------------------------------------------------------- -/

/-- Characters removed by the first substitution of sanitize_filename:
the class [/\\?%*:|\"<>\x7F\x00-\x1F]. -/
def isIllegalChar (c : Char) : Bool :=
  c = '/' || c = '\\' || c = '?' || c = '%' || c = '*' || c = ':' || c = '|' ||
  c = '"' || c = '<' || c = '>' || c.toNat == 0x7F || c.toNat ≤ 0x1F

/-- First substitution: every illegal character becomes a dash. -/
def step1 (l : List Char) : List Char :=
  l.map (fun c => if isIllegalChar c then '-' else c)

/-- Separator class [. ] used after a reserved device name. -/
def sepOk (c : Char) : Bool := c = '.' || c = ' '

/-- Reserved Windows device names of the second substitution, lower-cased
(the regex is compiled with re.IGNORECASE). -/
def reservedNames : List String :=
  ["con", "conin$", "conout$", "prn", "aux", "clock$", "nul",
   "com0", "com1", "com2", "com3", "com4", "com5", "com6", "com7", "com8", "com9",
   "lpt0", "lpt1", "lpt2", "lpt3", "lpt4", "lpt5", "lpt6", "lpt7", "lpt8", "lpt9",
   "lst", "keybd$", "screen$", "$idle$", "config$"]

/-- Try to match one reserved name (case-insensitively) at the head of `s`,
followed by a separator or the end of the string; on success return the
characters after the matched span. -/
def tryName : List Char → List Char → Option (List Char)
  | [], s =>
    match s with
    | [] => some []
    | c :: cs => if sepOk c then some cs else none
  | _ :: _, [] => none
  | n :: ns, c :: cs => if c.toLower = n then tryName ns cs else none

/-- Try every reserved name in the order the alternation lists them. -/
def afterName (s : List Char) : Option (List Char) :=
  reservedNames.findSome? (fun nm => tryName nm.data s)

/-- Second substitution: `^ ?(CON|...)([. ]|$)` replaced by '-'.  The pattern
is anchored, so it fires at most once.  When the string starts with a space
the regex consumes it greedily; backtracking to the empty-space branch can
never succeed because no reserved name starts with a space. -/
def step2 (s : List Char) : List Char :=
  if s.head? = some ' ' then
    match afterName s.tail with
    | some tail => '-' :: tail
    | none => s
  else
    match afterName s with
    | some tail => '-' :: tail
    | none => s

/-- Replace a leading space by a dash (first alternative of `^ |[. ]$`). -/
def replaceHead (l : List Char) : List Char :=
  match l with
  | [] => []
  | c :: rest => if c = ' ' then '-' :: rest else c :: rest

/-- Replace a trailing '.' or ' ' by a dash (second alternative of
`^ |[. ]$`). -/
def replaceLast : List Char → List Char
  | [] => []
  | [c] => if sepOk c then ['-'] else [c]
  | c :: c2 :: rest => c :: replaceLast (c2 :: rest)

/-- Third substitution.  re.sub scans the original string left to right, so
the leading-space match (position 0) and the trailing match (last position)
are independent except for one-character strings, where the leading
alternative wins; `replaceLast ∘ replaceHead` reproduces exactly that. -/
def step3 (l : List Char) : List Char := replaceLast (replaceHead l)

/-- sanitize_filename (calibre2jellyfin.py lines 790-819). -/
def sanitize_filename (s : String) : String := ⟨step3 (step2 (step1 s.data))⟩

/- Lemmas towards idempotence of sanitize_filename. -/

/-- Every reserved name is nonempty and contains neither a dash nor a space. -/
theorem reservedNames_wf :
    ∀ nm ∈ reservedNames, nm.data ≠ [] ∧ '-' ∉ nm.data ∧ ' ' ∉ nm.data := by
  decide

/-- A reserved name never matches a string whose first character is a
toLower-fixed character absent from the name. -/
theorem tryName_head_fixed (c : Char) (hlow : c.toLower = c) (nm : List Char)
    (hne : nm ≠ []) (hnm : c ∉ nm) (l : List Char) :
    tryName nm (c :: l) = none := by
  cases nm with
  | nil => exact absurd rfl hne
  | cons n ns =>
    have hd : ¬(c.toLower = n) := by
      intro h
      rw [hlow] at h
      exact hnm (h ▸ List.mem_cons_self n ns)
    simp only [tryName]
    rw [if_neg hd]

/-- No reserved-name match can start at a dash. -/
theorem afterName_dash (l : List Char) : afterName ('-' :: l) = none := by
  rw [afterName, List.findSome?_eq_none_iff]
  intro nm hnm
  obtain ⟨h1, h2, _⟩ := reservedNames_wf nm hnm
  exact tryName_head_fixed '-' (by decide) nm.data h1 h2 l

/-- No reserved-name match can start at a space. -/
theorem afterName_space (l : List Char) : afterName (' ' :: l) = none := by
  rw [afterName, List.findSome?_eq_none_iff]
  intro nm hnm
  obtain ⟨h1, _, h3⟩ := reservedNames_wf nm hnm
  exact tryName_head_fixed ' ' (by decide) nm.data h1 h3 l

/-- Characters surviving a successful tryName match come from the input. -/
theorem tryName_mem : ∀ (nm s t : List Char), tryName nm s = some t →
    ∀ c ∈ t, c ∈ s
  | [], s, t, h => by
    cases s with
    | nil => simp [tryName] at h; simp [← h]
    | cons c cs =>
      by_cases hc : sepOk c
      · simp [tryName, hc] at h
        intro x hx
        exact List.mem_cons_of_mem c (h ▸ hx)
      · simp [tryName, hc] at h
  | n :: ns, [], t, h => by simp [tryName] at h
  | n :: ns, c :: cs, t, h => by
    by_cases hc : c.toLower = n
    · simp only [tryName, hc, if_pos] at h
      intro x hx
      exact List.mem_cons_of_mem c (tryName_mem ns cs t h x hx)
    · simp [tryName, hc] at h

/-- A successful findSome? comes from some list element. -/
theorem findSome?_exists {α β : Type} (g : α → Option β) :
    ∀ (L : List α) (t : β), L.findSome? g = some t → ∃ x ∈ L, g x = some t
  | [], t, h => by simp [List.findSome?] at h
  | x :: rest, t, h => by
    rw [List.findSome?_cons] at h
    cases hx : g x with
    | some t' =>
      rw [hx] at h
      exact ⟨x, List.mem_cons_self x rest, hx.trans h⟩
    | none =>
      rw [hx] at h
      obtain ⟨y, hy, hgy⟩ := findSome?_exists g rest t h
      exact ⟨y, List.mem_cons_of_mem x hy, hgy⟩

/-- Characters of a successful afterName remainder come from the input. -/
theorem afterName_mem (s t : List Char) (h : afterName s = some t) :
    ∀ c ∈ t, c ∈ s := by
  rw [afterName] at h
  obtain ⟨nm, _, htry⟩ := findSome?_exists _ reservedNames t h
  exact tryName_mem nm.data s t htry

/-- Characters of step2 output: either a dash or a character of the input. -/
theorem step2_mem (s : List Char) : ∀ c ∈ step2 s, c = '-' ∨ c ∈ s := by
  intro c hc
  rw [step2] at hc
  by_cases hh : s.head? = some ' '
  · simp only [hh, if_pos] at hc
    cases ha : afterName s.tail with
    | some tail =>
      rw [ha] at hc
      rcases List.mem_cons.mp hc with h | h
      · exact Or.inl h
      · exact Or.inr (List.mem_of_mem_tail (afterName_mem s.tail tail ha c h))
    | none => rw [ha] at hc; exact Or.inr hc
  · simp only [hh, if_neg, if_false] at hc
    cases ha : afterName s with
    | some tail =>
      rw [ha] at hc
      rcases List.mem_cons.mp hc with h | h
      · exact Or.inl h
      · exact Or.inr (afterName_mem s tail ha c h)
    | none => rw [ha] at hc; exact Or.inr hc

/-- Characters of replaceHead output: a dash or a character of the input. -/
theorem replaceHead_mem (l : List Char) : ∀ c ∈ replaceHead l, c = '-' ∨ c ∈ l := by
  intro c hc
  cases l with
  | nil => simp [replaceHead] at hc
  | cons d rest =>
    by_cases hd : d = ' '
    · simp only [replaceHead, hd, if_pos] at hc
      rcases List.mem_cons.mp hc with h | h
      · exact Or.inl h
      · exact Or.inr (List.mem_cons_of_mem _ h)
    · simp only [replaceHead, hd, if_neg, if_false] at hc
      exact Or.inr hc

/-- Characters of replaceLast output: a dash or a character of the input. -/
theorem replaceLast_mem : ∀ (l : List Char), ∀ c ∈ replaceLast l, c = '-' ∨ c ∈ l
  | [] => by simp [replaceLast]
  | [d] => by
    intro c hc
    by_cases hd : sepOk d
    · simp [replaceLast, hd] at hc; exact Or.inl hc
    · simp [replaceLast, hd] at hc; simp [hc]
  | d :: e :: rest => by
    intro c hc
    simp only [replaceLast] at hc
    rcases List.mem_cons.mp hc with h | h
    · exact Or.inr (h ▸ List.mem_cons_self d (e :: rest))
    · rcases replaceLast_mem (e :: rest) c h with h2 | h2
      · exact Or.inl h2
      · exact Or.inr (List.mem_cons_of_mem _ h2)

/-- step1 leaves a list without illegal characters unchanged. -/
theorem step1_fixed (l : List Char) (h : ∀ c ∈ l, isIllegalChar c = false) :
    step1 l = l := by
  rw [step1]
  induction l with
  | nil => rfl
  | cons c rest ih =>
    simp only [List.map_cons]
    rw [h c (List.mem_cons_self c rest), if_neg (by simp)]
    rw [ih (fun x hx => h x (List.mem_cons_of_mem c hx))]

/-- step1 output contains no illegal characters. -/
theorem step1_legal (l : List Char) : ∀ c ∈ step1 l, isIllegalChar c = false := by
  intro c hc
  rw [step1, List.mem_map] at hc
  obtain ⟨x, _, rfl⟩ := hc
  by_cases hx : isIllegalChar x
  · rw [if_pos hx]; decide
  · rw [if_neg hx]; simpa using hx

/-- Replacing the trailing separator cannot create a reserved-name match
where there was none: the only changed character becomes a dash, which is
neither a name character nor a separator. -/
theorem tryName_replaceLast_none : ∀ (u nm : List Char), '-' ∉ nm →
    tryName nm u = none → tryName nm (replaceLast u) = none
  | [], nm, _, h => by simpa [replaceLast] using h
  | [d], nm, hnm, h => by
    by_cases hd : sepOk d
    · rw [replaceLast, if_pos hd]
      cases nm with
      | nil => rw [tryName, if_pos hd] at h; exact absurd h (by simp)
      | cons n ns =>
        have hne : ¬('-'.toLower = n) := by
          intro he
          apply hnm
          have : n = '-' := by rw [← he]; rfl
          exact this ▸ List.mem_cons_self n ns
        simp only [tryName]
        rw [if_neg hne]
    · rw [replaceLast, if_neg hd]; exact h
  | d :: e :: rest, nm, hnm, h => by
    rw [show replaceLast (d :: e :: rest) = d :: replaceLast (e :: rest) from rfl]
    cases nm with
    | nil =>
      rw [tryName] at h ⊢
      by_cases hd : sepOk d
      · rw [if_pos hd] at h; exact absurd h (by simp)
      · rw [if_neg hd] at h; rw [if_neg hd]
    | cons n ns =>
      rw [tryName] at h ⊢
      by_cases hdn : d.toLower = n
      · rw [if_pos hdn] at h
        rw [if_pos hdn]
        exact tryName_replaceLast_none (e :: rest) ns
          (fun hm => hnm (List.mem_cons_of_mem n hm)) h
      · rw [if_neg hdn] at h; rw [if_neg hdn]

/-- If no reserved-name match fires, none fires after the trailing
substitution either. -/
theorem afterName_replaceLast_none (u : List Char) (h : afterName u = none) :
    afterName (replaceLast u) = none := by
  rw [afterName, List.findSome?_eq_none_iff] at h ⊢
  intro nm hnm
  obtain ⟨_, h2, _⟩ := reservedNames_wf nm hnm
  exact tryName_replaceLast_none u nm.data h2 (h nm hnm)

/-- replaceLast maps nonempty lists to nonempty lists. -/
theorem replaceLast_ne_nil : ∀ l : List Char, l ≠ [] → replaceLast l ≠ []
  | [], h => absurd rfl h
  | [d], _ => by
    by_cases hd : sepOk d
    · rw [replaceLast, if_pos hd]; simp
    · rw [replaceLast, if_neg hd]; simp
  | d :: e :: rest, _ => by
    rw [show replaceLast (d :: e :: rest) = d :: replaceLast (e :: rest) from rfl]
    simp

/-- replaceLast is idempotent. -/
theorem replaceLast_idem : ∀ l : List Char, replaceLast (replaceLast l) = replaceLast l
  | [] => rfl
  | [d] => by
    by_cases hd : sepOk d
    · rw [replaceLast, if_pos hd, replaceLast, if_neg (by decide)]
    · rw [replaceLast, if_neg hd, replaceLast, if_neg hd]
  | d :: e :: rest => by
    rw [show replaceLast (d :: e :: rest) = d :: replaceLast (e :: rest) from rfl]
    cases hr : replaceLast (e :: rest) with
    | nil => exact absurd hr (replaceLast_ne_nil (e :: rest) (by simp))
    | cons x xs =>
      calc replaceLast (d :: x :: xs)
          = d :: replaceLast (x :: xs) := rfl
        _ = d :: replaceLast (replaceLast (e :: rest)) := by rw [hr]
        _ = d :: replaceLast (e :: rest) := by rw [replaceLast_idem (e :: rest)]
        _ = d :: x :: xs := by rw [hr]

/-- replaceHead is the identity on lists not starting with a space. -/
theorem replaceHead_fixed (l : List Char) (h : l.head? ≠ some ' ') :
    replaceHead l = l := by
  cases l with
  | nil => rfl
  | cons c rest =>
    have : ¬(c = ' ') := fun he => h (by rw [he]; rfl)
    rw [replaceHead, if_neg this]

/-- The head of a replaceHead output is never a space. -/
theorem replaceHead_head (l : List Char) : (replaceHead l).head? ≠ some ' ' := by
  cases l with
  | nil => simp [replaceHead]
  | cons c rest =>
    by_cases hc : c = ' '
    · rw [replaceHead, if_pos hc]; simp
    · rw [replaceHead, if_neg hc]; simpa using hc

/-- replaceLast preserves the head character or turns it into a dash. -/
theorem replaceLast_head : ∀ l : List Char,
    (replaceLast l).head? = l.head? ∨ (replaceLast l).head? = some '-'
  | [] => Or.inl rfl
  | [d] => by
    by_cases hd : sepOk d
    · rw [replaceLast, if_pos hd]; exact Or.inr rfl
    · rw [replaceLast, if_neg hd]; exact Or.inl rfl
  | d :: e :: rest => by
    rw [show replaceLast (d :: e :: rest) = d :: replaceLast (e :: rest) from rfl]
    exact Or.inl rfl

/-- replaceLast maps a dash-headed list to a dash-headed list. -/
theorem replaceLast_dash_cons (t : List Char) :
    ∃ t', replaceLast ('-' :: t) = '-' :: t' := by
  cases t with
  | nil => exact ⟨[], by rw [replaceLast, if_neg (by decide)]⟩
  | cons x xs =>
    exact ⟨replaceLast (x :: xs),
      show replaceLast ('-' :: x :: xs) = '-' :: replaceLast (x :: xs) from rfl⟩

/-- All characters of a full sanitizer pass are legal. -/
theorem sanitized_legal (l : List Char) :
    ∀ c ∈ step3 (step2 (step1 l)), isIllegalChar c = false := by
  intro c hc
  simp only [step3] at hc
  rcases replaceLast_mem _ c hc with rfl | hc2
  · decide
  rcases replaceHead_mem _ c hc2 with rfl | hc3
  · decide
  rcases step2_mem _ c hc3 with rfl | hc4
  · decide
  exact step1_legal l c hc4

/-- The head of a full step3 pass is never a space. -/
theorem step3_head (v : List Char) : (step3 v).head? ≠ some ' ' := by
  simp only [step3]
  rcases replaceLast_head (replaceHead v) with h | h
  · rw [h]; exact replaceHead_head v
  · rw [h]; simp

/-- step2 is the identity when the string neither starts with a space nor
admits a reserved-name match. -/
theorem step2_fixed_of (w : List Char) (hh : w.head? ≠ some ' ')
    (ha : afterName w = none) : step2 w = w := by
  simp only [step2]
  rw [if_neg hh, ha]

/-- After a full sanitizer pass no reserved-name match remains: a fired
match leaves a dash at the head, and the trailing substitution cannot
introduce a fresh match. -/
theorem afterName_step3_step2 (u : List Char) :
    afterName (step3 (step2 u)) = none := by
  by_cases hh : u.head? = some ' '
  · obtain ⟨r, rfl⟩ : ∃ r, u = ' ' :: r := by
      cases u with
      | nil => simp at hh
      | cons c cs =>
        simp only [List.head?_cons, Option.some.injEq] at hh
        exact ⟨cs, by rw [hh]⟩
    cases ha : afterName (' ' :: r).tail with
    | some tail =>
      have hs : step2 (' ' :: r) = '-' :: tail := by
        simp only [step2]
        rw [if_pos (show (' ' :: r).head? = some ' ' from rfl), ha]
      rw [hs]
      simp only [step3]
      rw [replaceHead_fixed ('-' :: tail) (by simp)]
      obtain ⟨t', ht'⟩ := replaceLast_dash_cons tail
      rw [ht']
      exact afterName_dash t'
    | none =>
      have hs : step2 (' ' :: r) = ' ' :: r := by
        simp only [step2]
        rw [if_pos (show (' ' :: r).head? = some ' ' from rfl), ha]
      rw [hs]
      simp only [step3]
      rw [show replaceHead (' ' :: r) = '-' :: r by rw [replaceHead, if_pos rfl]]
      obtain ⟨t', ht'⟩ := replaceLast_dash_cons r
      rw [ht']
      exact afterName_dash t'
  · cases ha : afterName u with
    | some tail =>
      have hs : step2 u = '-' :: tail := by
        simp only [step2]
        rw [if_neg hh, ha]
      rw [hs]
      simp only [step3]
      rw [replaceHead_fixed ('-' :: tail) (by simp)]
      obtain ⟨t', ht'⟩ := replaceLast_dash_cons tail
      rw [ht']
      exact afterName_dash t'
    | none =>
      have hs : step2 u = u := by
        simp only [step2]
        rw [if_neg hh, ha]
      rw [hs]
      simp only [step3]
      rw [replaceHead_fixed u hh]
      exact afterName_replaceLast_none u ha

/-- C7: the filename sanitizer is idempotent: for every string s,
sanitize_filename (sanitize_filename s) = sanitize_filename s. -/
theorem sanitize_filename_idem (s : String) :
    sanitize_filename (sanitize_filename s) = sanitize_filename s := by
  unfold sanitize_filename
  congr 1
  show step3 (step2 (step1 (step3 (step2 (step1 s.data))))) =
    step3 (step2 (step1 s.data))
  set w := step3 (step2 (step1 s.data)) with hw
  have h1 : step1 w = w := step1_fixed w (hw ▸ sanitized_legal s.data)
  have hhead : w.head? ≠ some ' ' := hw ▸ step3_head (step2 (step1 s.data))
  have hafter : afterName w = none := hw ▸ afterName_step3_step2 (step1 s.data)
  have h2 : step2 w = w := step2_fixed_of w hhead hafter
  have hrl : replaceLast w = w := by
    rw [hw]
    simp only [step3]
    exact replaceLast_idem _
  have h3 : step3 w = w := by
    simp only [step3]
    rw [replaceHead_fixed w hhead]
    exact hrl
  rw [h1, h2, h3]

/- ----------------------------------------------------------------
   BookMetadata.format_series_index  (lines 333-358)

   Python f-string padding {x:>03s} right-aligns with fill '0' to a
   minimum width of 3; {x:>02s} likewise to width 2.  A '.' splits the
   raw index at its FIRST occurrence (str.index).
   ---------------------------------------------------------------- -/

/-- Left-pad a character list with '0' to a minimum width (Python
f-string format spec >0Ns). -/
def padZeros (w : Nat) (l : List Char) : List Char :=
  if l.length < w then List.replicate (w - l.length) '0' ++ l else l

/-- format_series_index, translated from the source: empty input gives
the sentinel, an input with a dot is sliced at the index of the first
dot, anything else is padded whole. -/
def format_series_index (series_index : String) : String :=
  if series_index = "" then "999"
  else
    let l := series_index.data
    if l.contains '.' then
      let i := (l.takeWhile (fun c => c ≠ '.')).length
      ⟨padZeros 3 (l.take i)⟩ ++ "." ++ ⟨padZeros 2 (l.drop (i + 1))⟩
    else ⟨padZeros 3 l⟩

/-- The claim's reading of the formatter: split at the first '.' into the
part before it and the part after it, pad those to widths 3 and 2. -/
def formatSeriesIndexSpec (s : String) : String :=
  if s = "" then "999"
  else if s.data.contains '.' then
    ⟨padZeros 3 (s.data.takeWhile (fun c => c ≠ '.'))⟩ ++ "." ++
      ⟨padZeros 2 (s.data.dropWhile (fun c => c ≠ '.')).tail⟩
  else ⟨padZeros 3 s.data⟩

/-- Taking as many elements as the takeWhile result recovers it. -/
theorem take_takeWhile_length {α : Type} (p : α → Bool) :
    ∀ l : List α, l.take (l.takeWhile p).length = l.takeWhile p
  | [] => rfl
  | c :: rest => by
    by_cases hc : p c
    · rw [List.takeWhile_cons_of_pos hc]
      simp only [List.length_cons, List.take_succ_cons]
      rw [take_takeWhile_length p rest]
    · rw [List.takeWhile_cons_of_neg hc]
      rfl

/-- Dropping one element beyond the takeWhile result yields the tail of
the dropWhile result. -/
theorem drop_takeWhile_length_succ {α : Type} (p : α → Bool) :
    ∀ l : List α, l.drop ((l.takeWhile p).length + 1) = (l.dropWhile p).tail
  | [] => rfl
  | c :: rest => by
    by_cases hc : p c
    · rw [List.takeWhile_cons_of_pos hc, List.dropWhile_cons_of_pos hc]
      simp only [List.length_cons, List.drop_succ_cons]
      exact drop_takeWhile_length_succ p rest
    · rw [List.takeWhile_cons_of_neg hc, List.dropWhile_cons_of_neg hc]
      rfl

/-- C6: the series index formatter maps "" to "999", splits inputs
containing a dot at the first dot padding the integer part to width 3 and
the fractional part to width 2, pads every other input to width 3, and
satisfies the six documented examples. -/
theorem format_series_index_correct :
    (∀ s : String, format_series_index s = formatSeriesIndexSpec s) ∧
    format_series_index "" = "999" ∧
    format_series_index "3" = "003" ∧
    format_series_index "34" = "034" ∧
    format_series_index "345" = "345" ∧
    format_series_index "3456" = "3456" ∧
    format_series_index "3.2" = "003.02" := by
  refine ⟨fun s => ?_, by decide, by decide, by decide, by decide, by decide, by decide⟩
  rw [format_series_index, formatSeriesIndexSpec]
  by_cases he : s = ""
  · rw [if_pos he, if_pos he]
  · rw [if_neg he, if_neg he]
    by_cases hdot : s.data.contains '.'
    · rw [if_pos hdot, if_pos hdot]
      simp only [take_takeWhile_length, drop_takeWhile_length_succ]
    · rw [if_neg hdot, if_neg hdot]

/- ----------------------------------------------------------------
   Book.__init__ destination-path construction  (lines 445-496)

   Paths are modelled as lists of path segments; `/` is list append.
   author_folder_dst_path = jellyfin_store / author_folder_src_path.name
   is built first, then book_folder and book_folder_dst_path follow the
   series / foldermode conditionals of lines 479-488.
   ---------------------------------------------------------------- -/

/-- Destination paths computed by Book.__init__. -/
structure BookPaths where
  author_folder_dst_path : List String
  book_folder : String
  book_folder_dst_path : List String
deriving Repr, DecidableEq

/-- Path construction of Book.__init__ (lines 447-488): `series` and
`formatted_series_index` come from the loaded metadata, `authorName` and
`bookFolderName` are the base names of the source folders. -/
def bookInitPaths (jellyfin_store : List String) (foldermode : String)
    (authorName bookFolderName series formatted_series_index : String) :
    BookPaths :=
  let author_folder_dst_path := jellyfin_store ++ [authorName]
  if series ≠ "" ∧ (foldermode = "author,series,book" ∨ foldermode = "series,book") then
    let book_folder :=
      sanitize_filename (formatted_series_index ++ " - " ++ bookFolderName)
    if foldermode = "author,series,book" then
      ⟨author_folder_dst_path, book_folder,
        author_folder_dst_path ++ [sanitize_filename (series ++ " Series"), book_folder]⟩
    else
      ⟨author_folder_dst_path, book_folder,
        jellyfin_store ++ [sanitize_filename (series ++ " Series"), book_folder]⟩
  else if foldermode = "book" ∨ foldermode = "series,book" then
    ⟨author_folder_dst_path, bookFolderName, jellyfin_store ++ [bookFolderName]⟩
  else
    ⟨author_folder_dst_path, bookFolderName, author_folder_dst_path ++ [bookFolderName]⟩

/-- C1: with a non-empty series and a series-nesting folder mode the
destination book folder is
series-root / sanitize(series + " Series") / sanitize(index + " - " + book),
where the series root is the jellyfin store in series,book mode and the
destination author folder in author,series,book mode; with an empty series
the destination is store/book (modes book and series,book) or
store/author/book (mode author,series,book), never under a series folder. -/
theorem bookInitPaths_dst_correct (store : List String)
    (mode author book series fsi : String) :
    ((series ≠ "" ∧ (mode = "series,book" ∨ mode = "author,series,book")) →
      (bookInitPaths store mode author book series fsi).book_folder_dst_path =
        (if mode = "series,book" then store else store ++ [author]) ++
          [sanitize_filename (series ++ " Series"),
           sanitize_filename (fsi ++ " - " ++ book)]) ∧
    (series = "" →
      ((mode = "book" ∨ mode = "series,book") →
        (bookInitPaths store mode author book series fsi).book_folder_dst_path =
          store ++ [book]) ∧
      (mode = "author,series,book" →
        (bookInitPaths store mode author book series fsi).book_folder_dst_path =
          store ++ [author] ++ [book])) := by
  constructor
  · rintro ⟨hs, hm⟩
    rw [bookInitPaths]
    rw [if_pos ⟨hs, hm.symm⟩]
    rcases hm with hm | hm
    · have hne : ¬(mode = "author,series,book") := by rw [hm]; decide
      rw [if_neg hne, if_pos hm]
    · rw [if_pos hm]
      have hne : ¬(mode = "series,book") := by rw [hm]; decide
      rw [if_neg hne]
  · intro hs
    have hcond : ¬(series ≠ "" ∧
        (mode = "author,series,book" ∨ mode = "series,book")) := by
      rintro ⟨h, _⟩; exact h hs
    constructor
    · intro hm
      rw [bookInitPaths, if_neg hcond, if_pos hm]
    · intro hm
      have hm2 : ¬(mode = "book" ∨ mode = "series,book") := by
        rw [hm]; decide
      rw [bookInitPaths, if_neg hcond, if_neg hm2]

/-- Witness for C1 at the spec's concrete example: series "Foo", formatted
index from raw index "3", folder mode series,book. -/
theorem bookInitPaths_dst_correct_witness :
    (bookInitPaths ["root"] "series,book" "A" "bookfolder" "Foo"
      (format_series_index "3")).book_folder_dst_path =
      ["root", "Foo Series", "003 - bookfolder"] := by
  have h := (bookInitPaths_dst_correct ["root"] "series,book" "A" "bookfolder"
    "Foo" (format_series_index "3")).1 ⟨by decide, Or.inl rfl⟩
  rw [h]
  decide

/- ----------------------------------------------------------------
   Book.do_metadata write decision  (lines 634-643)
   ---------------------------------------------------------------- -/

/-- Inputs of the metadata write decision: whether the metadata document
was loaded, whether a source metadata path was found, the
--update-all-metadata flag, and existence/mtime data of the destination
and source metadata files. -/
structure MetadataSyncArgs where
  docLoaded : Bool
  srcExists : Bool
  updateAll : Bool
  dstExists : Bool
  dstMtime : Nat
  srcMtime : Nat
deriving Repr, DecidableEq

/-- The copy_metadata decision of Book.do_metadata (lines 634-643). -/
def do_metadata_copy (a : MetadataSyncArgs) : Bool :=
  if a.docLoaded && a.srcExists then
    if a.updateAll then true
    else if a.dstExists then decide (a.dstMtime < a.srcMtime)
    else true
  else false

/-- C2: with a loaded document and existing source metadata path the
destination metadata file is written iff the update-all flag is set, or no
destination file exists, or the destination is strictly older than the
source; in every other case no write occurs. -/
theorem do_metadata_copy_iff (a : MetadataSyncArgs)
    (h1 : a.docLoaded = true) (h2 : a.srcExists = true) :
    do_metadata_copy a = true ↔
      (a.updateAll = true ∨ a.dstExists = false ∨ a.dstMtime < a.srcMtime) := by
  rw [do_metadata_copy, if_pos (by rw [h1, h2]; rfl)]
  by_cases hu : a.updateAll = true
  · simp [hu]
  · rw [if_neg hu]
    by_cases hd : a.dstExists = true
    · rw [if_pos hd]
      simp [hu, hd]
    · rw [if_neg hd]
      simp only [Bool.not_eq_true] at hd
      simp [hu, hd]

/-- Witness for C2: stale destination (mtime 3 < source mtime 5) is
rewritten even with the update-all flag off. -/
theorem do_metadata_copy_iff_witness :
    do_metadata_copy ⟨true, true, false, true, 3, 5⟩ = true :=
  (do_metadata_copy_iff ⟨true, true, false, true, 3, 5⟩ rfl rfl).mpr
    (Or.inr (Or.inr (by decide)))

/- ----------------------------------------------------------------
   Book.do_book / do_cover / do_metadata as state transitions
   (lines 545-657)

   One destination book-folder is modelled by the existence of the folder
   and, per artifact (book symlink, cover symlink, metadata file), an
   existence flag plus a modification time.  Operations are assumed to
   succeed (the claims below concern a completed run); `now` is the clock
   used by symlink creation, utime and file writes.  Every write performed
   is recorded as an Eff.
   ---------------------------------------------------------------- -/

/-- Existence and mtime of one destination artifact. -/
structure ArtSt where
  present : Bool
  mtime : Nat
deriving Repr, DecidableEq

/-- Destination state of one book folder. -/
structure FsSt where
  folderExists : Bool
  bookDst : ArtSt
  coverDst : ArtSt
  metaDst : ArtSt
deriving Repr, DecidableEq

/-- Source-side data of one book: mtimes of the book file, cover and
metadata file; hasCover mirrors cover_file_src_path being set, hasMeta
mirrors "doc loaded and source metadata path found" of do_metadata. -/
structure SrcBook where
  bookMtime : Nat
  hasCover : Bool
  coverMtime : Nat
  hasMeta : Bool
  metaMtime : Nat
deriving Repr, DecidableEq

/-- Destination writes performed by a sync pass. -/
inductive Eff where
  | mkdirNew | linkBook | touchBook | linkCover | touchCover | writeMeta
deriving Repr, DecidableEq

/-- Book.do_book (lines 545-579): mkdir -p (a write only when the folder
is missing), then create the symlink when absent, else touch it when its
own mtime is older than the source file's. -/
def do_book (s : SrcBook) (st : FsSt) (now : Nat) : FsSt × List Eff :=
  let mk : List Eff := if st.folderExists then [] else [Eff.mkdirNew]
  let st1 := { st with folderExists := true }
  if st1.bookDst.present then
    if st1.bookDst.mtime < s.bookMtime then
      ({ st1 with bookDst := ⟨true, now⟩ }, mk ++ [Eff.touchBook])
    else (st1, mk)
  else ({ st1 with bookDst := ⟨true, now⟩ }, mk ++ [Eff.linkBook])

/-- Book.do_cover (lines 581-613): same touch-or-create logic, skipped
when no source cover exists. -/
def do_cover (s : SrcBook) (st : FsSt) (now : Nat) : FsSt × List Eff :=
  if s.hasCover then
    if st.coverDst.present then
      if st.coverDst.mtime < s.coverMtime then
        ({ st with coverDst := ⟨true, now⟩ }, [Eff.touchCover])
      else (st, [])
    else ({ st with coverDst := ⟨true, now⟩ }, [Eff.linkCover])
  else (st, [])

/-- Book.do_metadata (lines 615-657): the copy decision of lines 635-643
followed by the write. -/
def do_metadata (s : SrcBook) (updateAll : Bool) (st : FsSt) (now : Nat) :
    FsSt × List Eff :=
  if s.hasMeta then
    let copy := do_metadata_copy
      ⟨true, true, updateAll, st.metaDst.present, st.metaDst.mtime, s.metaMtime⟩
    if copy then ({ st with metaDst := ⟨true, now⟩ }, [Eff.writeMeta])
    else (st, [])
  else (st, [])

/-- The sync phase of Book.do (lines 743-745): do_book, do_cover,
do_metadata in order, collecting the writes. -/
def runBook (s : SrcBook) (updateAll : Bool) (st : FsSt) (now : Nat) :
    FsSt × List Eff :=
  let r1 := do_book s st now
  let r2 := do_cover s r1.1 now
  let r3 := do_metadata s updateAll r2.1 now
  (r3.1, r1.2 ++ r2.2 ++ r3.2)

/-- After do_book the folder exists, the book symlink exists and is at
least as new as the source book file, and the other artifacts are
untouched. -/
theorem do_book_post (s : SrcBook) (st : FsSt) (now : Nat)
    (h : s.bookMtime ≤ now) :
    (do_book s st now).1.folderExists = true ∧
    (do_book s st now).1.bookDst.present = true ∧
    s.bookMtime ≤ (do_book s st now).1.bookDst.mtime ∧
    (do_book s st now).1.coverDst = st.coverDst ∧
    (do_book s st now).1.metaDst = st.metaDst := by
  rw [do_book]
  by_cases hp : st.bookDst.present = true
  · by_cases hm : st.bookDst.mtime < s.bookMtime
    · rw [if_pos hp, if_pos hm]
      exact ⟨rfl, rfl, h, rfl, rfl⟩
    · rw [if_pos hp, if_neg hm]
      exact ⟨rfl, hp, Nat.le_of_not_lt hm, rfl, rfl⟩
  · rw [if_neg hp]
    exact ⟨rfl, rfl, h, rfl, rfl⟩

/-- do_book performs no write on an up-to-date state. -/
theorem do_book_noop (s : SrcBook) (st : FsSt) (now : Nat)
    (hf : st.folderExists = true) (hp : st.bookDst.present = true)
    (hm : s.bookMtime ≤ st.bookDst.mtime) :
    do_book s st now = (st, []) := by
  have hst : { st with folderExists := true } = st := by
    cases st; simp_all
  rw [do_book, hst, if_pos hp, if_neg (Nat.not_lt.mpr hm), if_pos hf]

/-- After do_cover: when a cover exists it is present and at least as new
as the source; folder flag and other artifacts are untouched. -/
theorem do_cover_post (s : SrcBook) (st : FsSt) (now : Nat)
    (h : s.coverMtime ≤ now) :
    (s.hasCover = true → (do_cover s st now).1.coverDst.present = true ∧
      s.coverMtime ≤ (do_cover s st now).1.coverDst.mtime) ∧
    (s.hasCover = false → (do_cover s st now).1.coverDst = st.coverDst) ∧
    (do_cover s st now).1.folderExists = st.folderExists ∧
    (do_cover s st now).1.bookDst = st.bookDst ∧
    (do_cover s st now).1.metaDst = st.metaDst := by
  rw [do_cover]
  by_cases hc : s.hasCover = true
  · rw [if_pos hc]
    by_cases hp : st.coverDst.present = true
    · by_cases hm : st.coverDst.mtime < s.coverMtime
      · rw [if_pos hp, if_pos hm]
        exact ⟨fun _ => ⟨rfl, h⟩,
          fun hne => False.elim (by simp [hc] at hne), rfl, rfl, rfl⟩
      · rw [if_pos hp, if_neg hm]
        exact ⟨fun _ => ⟨hp, Nat.le_of_not_lt hm⟩,
          fun hne => False.elim (by simp [hc] at hne), rfl, rfl, rfl⟩
    · rw [if_neg hp]
      exact ⟨fun _ => ⟨rfl, h⟩,
        fun hne => False.elim (by simp [hc] at hne), rfl, rfl, rfl⟩
  · rw [if_neg hc]
    exact ⟨fun ht => absurd ht hc, fun _ => rfl, rfl, rfl, rfl⟩

/-- do_cover performs no write on an up-to-date state. -/
theorem do_cover_noop (s : SrcBook) (st : FsSt) (now : Nat)
    (h : s.hasCover = true → st.coverDst.present = true ∧
      s.coverMtime ≤ st.coverDst.mtime) :
    do_cover s st now = (st, []) := by
  rw [do_cover]
  by_cases hc : s.hasCover = true
  · obtain ⟨hp, hm⟩ := h hc
    rw [if_pos hc, if_pos hp, if_neg (Nat.not_lt.mpr hm)]
  · rw [if_neg hc]

/-- After do_metadata: when metadata is being synced the destination
metadata file is present and at least as new as the source; otherwise it
is untouched; folder flag and other artifacts are untouched. -/
theorem do_metadata_post (s : SrcBook) (u : Bool) (st : FsSt) (now : Nat)
    (h : s.metaMtime ≤ now) :
    (s.hasMeta = true → (do_metadata s u st now).1.metaDst.present = true ∧
      s.metaMtime ≤ (do_metadata s u st now).1.metaDst.mtime) ∧
    (s.hasMeta = false → (do_metadata s u st now).1.metaDst = st.metaDst) ∧
    (do_metadata s u st now).1.folderExists = st.folderExists ∧
    (do_metadata s u st now).1.bookDst = st.bookDst ∧
    (do_metadata s u st now).1.coverDst = st.coverDst := by
  rw [do_metadata]
  by_cases hc : s.hasMeta = true
  · rw [if_pos hc]
    by_cases hcopy : do_metadata_copy
        ⟨true, true, u, st.metaDst.present, st.metaDst.mtime, s.metaMtime⟩ = true
    · rw [if_pos hcopy]
      exact ⟨fun _ => ⟨rfl, h⟩,
        fun hne => False.elim (by simp [hc] at hne), rfl, rfl, rfl⟩
    · rw [if_neg hcopy]
      refine ⟨fun _ => ?_,
        fun hne => False.elim (by simp [hc] at hne), rfl, rfl, rfl⟩
      rw [do_metadata_copy] at hcopy
      simp only [if_pos rfl] at hcopy
      by_cases hu : u = true
      · rw [if_pos hu] at hcopy; cases hcopy rfl
      · rw [if_neg hu] at hcopy
        by_cases hp : st.metaDst.present = true
        · rw [if_pos hp] at hcopy
          exact ⟨hp, Nat.le_of_not_lt (by simpa using hcopy)⟩
        · rw [if_neg hp] at hcopy; cases hcopy rfl
  · rw [if_neg hc]
    exact ⟨fun ht => absurd ht hc, fun _ => rfl, rfl, rfl, rfl⟩

/-- do_metadata with the update-all flag off performs no write on an
up-to-date state. -/
theorem do_metadata_noop (s : SrcBook) (st : FsSt) (now : Nat)
    (h : s.hasMeta = true → st.metaDst.present = true ∧
      s.metaMtime ≤ st.metaDst.mtime) :
    do_metadata s false st now = (st, []) := by
  rw [do_metadata]
  by_cases hc : s.hasMeta = true
  · obtain ⟨hp, hm⟩ := h hc
    rw [if_pos hc]
    have : do_metadata_copy
        ⟨true, true, false, st.metaDst.present, st.metaDst.mtime, s.metaMtime⟩ = false := by
      rw [do_metadata_copy]
      simp only [if_pos rfl, Bool.false_eq_true, if_false, hp, if_pos]
      simpa using Nat.not_lt.mpr hm
    rw [this, if_neg (by simp)]
  · rw [if_neg hc]

/-- C3: re-running the export immediately after a completed run over an
unchanged source tree performs zero writes (no mkdir, no symlink creation,
no touch, no metadata rewrite) and leaves the destination state unchanged;
the update-all-metadata flag is off and the clock does not run backwards. -/
theorem second_run_no_writes (s : SrcBook) (st : FsSt) (n1 n2 : Nat)
    (hb : s.bookMtime ≤ n1) (hc : s.coverMtime ≤ n1) (hm : s.metaMtime ≤ n1)
    (h12 : n1 ≤ n2) :
    runBook s false (runBook s false st n1).1 n2 =
      ((runBook s false st n1).1, []) := by
  set st1 := (runBook s false st n1).1 with hst1def
  have hst1eq : st1 =
      (do_metadata s false (do_cover s (do_book s st n1).1 n1).1 n1).1 := rfl
  obtain ⟨hA1, hA2, hA3, hA4, hA5⟩ := do_book_post s st n1 hb
  obtain ⟨hCv1, hCv2, hCv3, hCv4, hCv5⟩ :=
    do_cover_post s (do_book s st n1).1 n1 hc
  obtain ⟨hMt1, hMt2, hMt3, hMt4, hMt5⟩ :=
    do_metadata_post s false (do_cover s (do_book s st n1).1 n1).1 n1 hm
  have hfold : st1.folderExists = true := by
    rw [hst1eq, hMt3, hCv3]; exact hA1
  have hpres : st1.bookDst.present = true := by
    rw [hst1eq, hMt4, hCv4]; exact hA2
  have hle : s.bookMtime ≤ st1.bookDst.mtime := by
    rw [hst1eq, hMt4, hCv4]; exact hA3
  have hcov : s.hasCover = true → st1.coverDst.present = true ∧
      s.coverMtime ≤ st1.coverDst.mtime := by
    intro h
    rw [hst1eq, hMt5]
    exact hCv1 h
  have hmet : s.hasMeta = true → st1.metaDst.present = true ∧
      s.metaMtime ≤ st1.metaDst.mtime := by
    intro h
    rw [hst1eq]
    exact hMt1 h
  have hB := do_book_noop s st1 n2 hfold hpres hle
  have hC := do_cover_noop s st1 n2 hcov
  have hM := do_metadata_noop s st1 n2 hmet
  simp only [runBook, hB, hC, hM]
  rfl

/-- Witness for C3 at concrete data: fresh empty destination, source
mtimes 5, first run at time 10, second at time 20. -/
theorem second_run_no_writes_witness :
    runBook ⟨5, true, 5, true, 5⟩ false
      (runBook ⟨5, true, 5, true, 5⟩ false
        ⟨false, ⟨false, 0⟩, ⟨false, 0⟩, ⟨false, 0⟩⟩ 10).1 20 =
    ((runBook ⟨5, true, 5, true, 5⟩ false
        ⟨false, ⟨false, 0⟩, ⟨false, 0⟩, ⟨false, 0⟩⟩ 10).1, []) :=
  second_run_no_writes ⟨5, true, 5, true, 5⟩
    ⟨false, ⟨false, 0⟩, ⟨false, 0⟩, ⟨false, 0⟩⟩ 10 20
    (by decide) (by decide) (by decide) (by decide)

/- ----------------------------------------------------------------
   Subject selection  (Construct.__init__ line 129,
   BookMetadata.__init__ line 321, Book.check_subject_line /
   check_subjects lines 747-782)
   ---------------------------------------------------------------- -/

/-- Python str.lower restricted to ASCII case mapping. -/
def pyLower (s : String) : String := ⟨s.data.map Char.toLower⟩

/-- Python str.strip: remove leading and trailing whitespace. -/
def pyStrip (s : String) : String :=
  ⟨(((s.data.dropWhile Char.isWhitespace).reverse).dropWhile
      Char.isWhitespace).reverse⟩

/-- Python str.split(sep) with a one-character separator: "" yields [""],
and every separator occurrence opens a new chunk. -/
def splitOnChar (sep : Char) : List Char → List (List Char)
  | [] => [[]]
  | c :: rest =>
    let r := splitOnChar sep rest
    if c = sep then [] :: r
    else
      match r with
      | h :: t => (c :: h) :: t
      | [] => [[c]]

/-- Construct.__init__ line 129: the subjects config value is lower-cased,
the leading newline dropped, and split into lines of comma-separated
items. -/
def parseSubjectsConfig (raw : String) : List (List String) :=
  (splitOnChar '\n' (pyLower ⟨raw.data.drop 1⟩).data).map
    (fun line => (splitOnChar ',' line).map (fun w => (⟨w⟩ : String)))

/-- Book.check_subject_line (lines 747-767): every item of the line,
whitespace-stripped, must occur among the book's subjects. -/
def check_subject_line (bookSubjects : List String) (line : List String) :
    Bool :=
  line.all (fun item => bookSubjects.contains (pyStrip item))

/-- Book.check_subjects (lines 769-782): first line whose every item
matches wins; the joined line is recorded as matched_subject.  `some`
encodes a True return together with the recorded subject. -/
def check_subjects (bookSubjects : List String)
    (query : List (List String)) : Option String :=
  (query.find? (fun line => check_subject_line bookSubjects line)).map
    (fun line => String.intercalate "," line)

/-- find? returns the head of the first satisfying suffix. -/
theorem find?_first {p : List String → Bool} :
    ∀ (pre : List (List String)) (line : List String)
      (post : List (List String)),
      (∀ l ∈ pre, p l = false) → p line = true →
      List.find? p (pre ++ line :: post) = some line
  | [], line, post, _, hline => by
    rw [List.nil_append]
    exact List.find?_cons_of_pos post hline
  | l0 :: pre, line, post, hpre, hline => by
    rw [List.cons_append]
    rw [List.find?_cons_of_neg _
      (by rw [hpre l0 (List.mem_cons_self l0 pre)]; simp)]
    exact find?_first pre line post
      (fun l hl => hpre l (List.mem_cons_of_mem l0 hl)) hline

/-- C8: over any configured subject query (lower-cased and split by
Construct.__init__) the matcher returns a match iff some query line has
every item, whitespace-trimmed, among the book's subjects; and it commits
to the first satisfied line, recording its comma-join as the matched
subject. -/
theorem check_subjects_spec (bookSubjects : List String) (raw : String) :
    ((check_subjects bookSubjects (parseSubjectsConfig raw)).isSome = true ↔
      ∃ line ∈ parseSubjectsConfig raw,
        ∀ item ∈ line, pyStrip item ∈ bookSubjects) ∧
    (∀ pre line post, parseSubjectsConfig raw = pre ++ line :: post →
      (∀ l ∈ pre, check_subject_line bookSubjects l = false) →
      check_subject_line bookSubjects line = true →
      check_subjects bookSubjects (parseSubjectsConfig raw) =
        some (String.intercalate "," line)) := by
  constructor
  · have hmap : ∀ (o : Option (List String)) (f : List String → String),
        (o.map f).isSome = o.isSome := by
      intro o f
      cases o <;> rfl
    rw [check_subjects, hmap, List.find?_isSome]
    constructor
    · rintro ⟨line, hmem, hline⟩
      refine ⟨line, hmem, fun item hitem => ?_⟩
      rw [check_subject_line, List.all_eq_true] at hline
      exact List.elem_iff.mp (hline item hitem)
    · rintro ⟨line, hmem, hline⟩
      refine ⟨line, hmem, ?_⟩
      rw [check_subject_line, List.all_eq_true]
      exact fun item hitem => List.elem_iff.mpr (hline item hitem)
  · intro pre line post heq hpre hline
    rw [check_subjects, heq, find?_first pre line post hpre hline]
    rfl

/-- Witness for C8: subjects query "b" OR "fantasy" against a book tagged
fantasy and adventure matches the second line and records it. -/
theorem check_subjects_spec_witness :
    check_subjects ["fantasy", "adventure"]
      (parseSubjectsConfig "\nb\nfantasy") = some "fantasy" := by
  have h := (check_subjects_spec ["fantasy", "adventure"] "\nb\nfantasy").2
    [["b"]] ["fantasy"] [] (by decide) (by decide) (by decide)
  exact h

/- ----------------------------------------------------------------
   BookMetadata.__init__  (lines 261-331) and the per-book loops
   (Construct.do_books_by_author lines 153-180, do_books_all 182-203)

   minidom is modelled by a flat list of elements in document order.
   `text` is the data of the element's first child when that child is a
   text node; a present element with no child at all has text = none, and
   accessing .firstChild.data on it raises AttributeError - modelled as
   Except.error ().  Only the open/parse block of __init__ is guarded by
   try/except; field extraction is not, and the book loops install no
   handler either, so an extraction error propagates out of the loop.
   ---------------------------------------------------------------- -/

/-- One XML element: tag name, attributes, and the text of its first
child if it has one. -/
structure XmlElement where
  tag : String
  attrs : List (String × String)
  text : Option String
deriving Repr, DecidableEq

/-- A parsed metadata document: its elements in document order. -/
structure XmlDoc where
  elements : List XmlElement
deriving Repr, DecidableEq

/-- minidom Element.getAttribute: the empty string when absent. -/
def getAttr (e : XmlElement) (nm : String) : String :=
  match e.attrs.find? (fun p => p.1 = nm) with
  | some p => p.2
  | none => ""

/-- el.firstChild.data: raises (AttributeError) when the element has no
first child. -/
def firstChildData (e : XmlElement) : Except Unit String :=
  match e.text with
  | some t => Except.ok t
  | none => Except.error ()

/-- Subject extraction of line 321: el.firstChild.data.lower().strip()
for every dc:subject element; any childless element raises. -/
def extractSubjects : List XmlElement → Except Unit (List String)
  | [] => Except.ok []
  | e :: rest => do
    let t ← firstChildData e
    let ts ← extractSubjects rest
    Except.ok (pyStrip (pyLower t) :: ts)

/-- Fields of a loaded BookMetadata object; element handles are kept as
presence flags. -/
structure BMeta where
  docLoaded : Bool
  series : String
  series_index : String
  formatted_series_index : String
  author : String
  subjects : List String
  hasTitle : Bool
  hasSort : Bool
  hasDesc : Bool
deriving Repr, DecidableEq

/-- BookMetadata attributes after the defaulting prologue (lines
281-289). -/
def emptyBMeta : BMeta := ⟨false, "", "", "", "", [], false, false, false⟩

/-- The meta-tag scan of lines 323-331, updating series, series_index
(with its formatted form) and the title_sort handle. -/
def scanMeta (md : BMeta) : List XmlElement → BMeta
  | [] => md
  | e :: rest =>
    let md2 :=
      if getAttr e "name" = "calibre:series" then
        { md with series := getAttr e "content" }
      else if getAttr e "name" = "calibre:series_index" then
        { md with series_index := getAttr e "content",
                  formatted_series_index :=
                    format_series_index (getAttr e "content") }
      else if getAttr e "name" = "calibre:title_sort" then
        { md with hasSort := true }
      else md
    scanMeta md2 rest

/-- What BookMetadata.__init__ receives: no path at all, a caught read
error (OSError), a caught parse error, or a parsed document. -/
inductive MetaSource where
  | noPath
  | readError
  | parseError
  | parsed (doc : XmlDoc)
deriving Repr, DecidableEq

/-- Author extraction of lines 311-313: authorels[0].firstChild.data when
a dc:creator element exists, the empty default otherwise; a childless
first creator element raises. -/
def extractAuthor (els : List XmlElement) : Except Unit String :=
  match els with
  | [] => Except.ok ""
  | a :: _ => firstChildData a

/-- BookMetadata.__init__ (lines 261-331).  Read and parse failures are
caught (warning logged, doc left None).  Extraction from a parsed
document accesses authorels[0].firstChild.data and every
subject's firstChild.data without a guard, so a childless dc:creator or
dc:subject element raises out of the constructor. -/
def bookMetadataInit : MetaSource → Except Unit BMeta
  | MetaSource.noPath => Except.ok emptyBMeta
  | MetaSource.readError => Except.ok emptyBMeta
  | MetaSource.parseError => Except.ok emptyBMeta
  | MetaSource.parsed doc => do
    let titleels := doc.elements.filter (fun e => e.tag = "dc:title")
    let author ←
      extractAuthor (doc.elements.filter (fun e => e.tag = "dc:creator"))
    let descels := doc.elements.filter (fun e => e.tag = "dc:description")
    let subjects ←
      extractSubjects (doc.elements.filter (fun e => e.tag = "dc:subject"))
    let md0 : BMeta :=
      { docLoaded := true, series := "", series_index := "",
        formatted_series_index := "", author := author,
        subjects := subjects, hasTitle := !titleels.isEmpty,
        hasSort := false, hasDesc := !descels.isEmpty }
    Except.ok (scanMeta md0 (doc.elements.filter (fun e => e.tag = "meta")))

/-- The per-book loop of Construct.do_books_by_author / do_books_all
(lines 174-180, 197-203): Book(...) is constructed - which loads the
metadata - and processed with no exception handler around the body, so an
error raised for one book propagates out of the loop.  Returns the number
of books processed when no error escapes. -/
def processBooks : List MetaSource → Except Unit Nat
  | [] => Except.ok 0
  | b :: rest => do
    let _ ← bookMetadataInit b
    let n ← processBooks rest
    Except.ok (n + 1)

/-- Boolean success test for the constructor's outcome. -/
def initOk (e : Except Unit BMeta) : Bool :=
  match e with
  | Except.ok _ => true
  | Except.error _ => false

/-- Exactly when extraction from a parsed document raises: the first
dc:creator element (if any) is childless, or some dc:subject element is
childless. -/
def initExtractionFails (doc : XmlDoc) : Bool :=
  (match doc.elements.filter (fun e => e.tag = "dc:creator") with
   | [] => false
   | a :: _ => a.text.isNone) ||
  (doc.elements.filter (fun e => e.tag = "dc:subject")).any
    (fun e => e.text.isNone)

/-- bind on a successful Except reduces to the continuation. -/
theorem exceptBind_ok {A B : Type} (a : A) (f : A → Except Unit B) :
    (Except.ok a : Except Unit A) >>= f = f a := rfl

/-- bind on a failed Except short-circuits. -/
theorem exceptBind_error {A B : Type} (f : A → Except Unit B) :
    (Except.error () : Except Unit A) >>= f = Except.error () := rfl

/-- extractSubjects raises exactly when some subject element is
childless. -/
theorem extractSubjects_error_iff : ∀ els : List XmlElement,
    (extractSubjects els = Except.error ()) ↔
      els.any (fun e => e.text.isNone) = true
  | [] => by
    constructor
    · intro h
      exact absurd h (by simp [extractSubjects])
    · intro h
      simp at h
  | e :: rest => by
    rw [show extractSubjects (e :: rest) = (firstChildData e >>= fun t =>
        extractSubjects rest >>= fun ts =>
          Except.ok (pyStrip (pyLower t) :: ts)) from rfl]
    cases ht : e.text with
    | none =>
      rw [show firstChildData e = Except.error () by rw [firstChildData, ht]]
      rw [exceptBind_error]
      simp [List.any_cons, ht]
    | some t =>
      rw [show firstChildData e = Except.ok t by rw [firstChildData, ht]]
      rw [exceptBind_ok]
      by_cases hany : (rest.any (fun x => x.text.isNone)) = true
      · rw [(extractSubjects_error_iff rest).mpr hany, exceptBind_error]
        simp [List.any_cons, hany]
      · cases hrv : extractSubjects rest with
        | error u =>
          cases u
          exact absurd ((extractSubjects_error_iff rest).mp hrv) hany
        | ok l =>
          rw [exceptBind_ok]
          constructor
          · intro h
            exact Except.noConfusion h
          · intro h
            rw [List.any_cons, Bool.or_eq_true] at h
            rcases h with h | h
            · rw [ht] at h
              simp at h
            · exact absurd h hany

/-- Extraction from a parsed document raises exactly under
initExtractionFails. -/
theorem bookMetadataInit_parsed_error_iff (doc : XmlDoc) :
    initOk (bookMetadataInit (MetaSource.parsed doc)) = false ↔
      initExtractionFails doc = true := by
  rw [show bookMetadataInit (MetaSource.parsed doc) =
      (extractAuthor (doc.elements.filter (fun e => e.tag = "dc:creator"))
         >>= fun author =>
       extractSubjects (doc.elements.filter (fun e => e.tag = "dc:subject"))
         >>= fun subjects =>
       Except.ok (scanMeta
         { docLoaded := true, series := "", series_index := "",
           formatted_series_index := "", author := author,
           subjects := subjects,
           hasTitle := !(doc.elements.filter
             (fun e => e.tag = "dc:title")).isEmpty,
           hasSort := false,
           hasDesc := !(doc.elements.filter
             (fun e => e.tag = "dc:description")).isEmpty }
         (doc.elements.filter (fun e => e.tag = "meta")))) from rfl]
  rw [initExtractionFails]
  cases hcr : doc.elements.filter (fun e => e.tag = "dc:creator") with
  | nil =>
    rw [show extractAuthor [] = Except.ok "" from rfl, exceptBind_ok]
    by_cases hany : ((doc.elements.filter (fun e => e.tag = "dc:subject")).any
        (fun e => e.text.isNone)) = true
    · rw [(extractSubjects_error_iff _).mpr hany, exceptBind_error]
      simp [initOk, hany]
    · cases hrv : extractSubjects
          (doc.elements.filter (fun e => e.tag = "dc:subject")) with
      | error u =>
        cases u
        exact absurd ((extractSubjects_error_iff _).mp hrv) hany
      | ok l =>
        rw [exceptBind_ok]
        simp [initOk, hany]
  | cons a rest =>
    cases ha : a.text with
    | none =>
      rw [show extractAuthor (a :: rest) = firstChildData a from rfl]
      rw [show firstChildData a = Except.error () by rw [firstChildData, ha]]
      rw [exceptBind_error]
      simp [initOk, ha]
    | some t =>
      rw [show extractAuthor (a :: rest) = firstChildData a from rfl]
      rw [show firstChildData a = Except.ok t by rw [firstChildData, ha]]
      rw [exceptBind_ok]
      by_cases hany : ((doc.elements.filter (fun e => e.tag = "dc:subject")).any
          (fun e => e.text.isNone)) = true
      · rw [(extractSubjects_error_iff _).mpr hany, exceptBind_error]
        simp [initOk, ha, hany]
      · cases hrv : extractSubjects
            (doc.elements.filter (fun e => e.tag = "dc:subject")) with
        | error u =>
          cases u
          exact absurd ((extractSubjects_error_iff _).mp hrv) hany
        | ok l =>
          rw [exceptBind_ok]
          simp [initOk, ha, hany]

/-- A successful processBooks run counts every book. -/
theorem processBooks_ok_length : ∀ (books : List MetaSource) (n : Nat),
    processBooks books = Except.ok n → n = books.length
  | [], n, h => by
    rw [show processBooks [] = Except.ok 0 from rfl] at h
    cases h
    rfl
  | b :: rest, n, h => by
    rw [show processBooks (b :: rest) = (bookMetadataInit b >>= fun _ =>
        processBooks rest >>= fun m => Except.ok (m + 1)) from rfl] at h
    cases hb : bookMetadataInit b with
    | error u =>
      cases u
      rw [hb, exceptBind_error] at h
      exact Except.noConfusion h
    | ok md =>
      rw [hb, exceptBind_ok] at h
      cases hr : processBooks rest with
      | error u =>
        cases u
        rw [hr, exceptBind_error] at h
        exact Except.noConfusion h
      | ok m =>
        rw [hr, exceptBind_ok] at h
        cases h
        rw [List.length_cons, processBooks_ok_length rest m hr]

/-- The run completes (processing every book) iff no book's metadata
construction raises. -/
theorem processBooks_ok_iff : ∀ books : List MetaSource,
    processBooks books = Except.ok books.length ↔
      ∀ b ∈ books, initOk (bookMetadataInit b) = true
  | [] => by
    constructor
    · intro _ b hb
      exact absurd hb (List.not_mem_nil b)
    · intro _
      rfl
  | b :: rest => by
    rw [show processBooks (b :: rest) = (bookMetadataInit b >>= fun _ =>
        processBooks rest >>= fun m => Except.ok (m + 1)) from rfl]
    cases hb : bookMetadataInit b with
    | error u =>
      cases u
      rw [exceptBind_error]
      constructor
      · intro h
        exact Except.noConfusion h
      · intro h
        have h2 := h b (List.mem_cons_self b rest)
        rw [hb] at h2
        exact Bool.noConfusion h2
    | ok md =>
      rw [exceptBind_ok]
      constructor
      · intro h b2 hb2
        have hrest : processBooks rest = Except.ok rest.length := by
          cases hr : processBooks rest with
          | error u =>
            cases u
            rw [hr, exceptBind_error] at h
            exact Except.noConfusion h
          | ok m =>
            rw [hr, exceptBind_ok] at h
            rw [List.length_cons] at h
            injection h with h2
            have hm : m = rest.length := by omega
            rw [hm]
        rcases List.mem_cons.mp hb2 with rfl | hmem
        · rw [hb]
          rfl
        · exact (processBooks_ok_iff rest).mp hrest b2 hmem
      · intro h
        have hrest := (processBooks_ok_iff rest).mpr
          (fun x hx => h x (List.mem_cons_of_mem b hx))
        rw [hrest, exceptBind_ok, List.length_cons]

/-- C4 counterexample: a metadata file that parses but carries a childless
dc:creator element raises out of Book construction; the loop has no
handler, so the run aborts and the second (well-formed) book is never
processed - the claim that every per-book error is caught fails here. -/
theorem per_book_error_uncaught_cex :
    processBooks [MetaSource.parsed ⟨[⟨"dc:creator", [], none⟩]⟩,
      MetaSource.parsed ⟨[⟨"dc:title", [], some "T"⟩]⟩] = Except.error () := rfl

/-- C4 (amended): once validation passes, read and parse failures of a
book's metadata file are caught and logged and processing continues with
the next book; but an error raised while extracting fields from a parsed
document - a childless first dc:creator element or any childless
dc:subject element - is not caught and aborts the run at that book. -/
theorem per_book_error_handling_amended (books : List MetaSource) :
    (bookMetadataInit MetaSource.noPath = Except.ok emptyBMeta ∧
     bookMetadataInit MetaSource.readError = Except.ok emptyBMeta ∧
     bookMetadataInit MetaSource.parseError = Except.ok emptyBMeta) ∧
    (processBooks books = Except.ok books.length ↔
      ∀ b ∈ books, initOk (bookMetadataInit b) = true) ∧
    (∀ doc : XmlDoc, initOk (bookMetadataInit (MetaSource.parsed doc)) = false ↔
      initExtractionFails doc = true) :=
  ⟨⟨rfl, rfl, rfl⟩, processBooks_ok_iff books, bookMetadataInit_parsed_error_iff⟩

/-- Witness for the amended C4: a run over one unreadable and one
unparseable metadata file completes, processing both books. -/
theorem per_book_error_handling_amended_witness :
    processBooks [MetaSource.readError, MetaSource.parseError] =
      Except.ok 2 :=
  (per_book_error_handling_amended
    [MetaSource.readError, MetaSource.parseError]).2.1.mpr (by decide)

/- ----------------------------------------------------------------
   BookMetadata.write  (lines 360-379)

   The body is: if self.doc: try: open(path, 'w') ... doc.writexml(f)
   except OSError: log warning.  open(path, 'w') truncates the
   destination as soon as it succeeds, so an OSError raised by open
   leaves the destination as it was, while an OSError raised during
   writexml leaves the destination holding whatever prefix of the
   serialized document was written before the failure.  The outcome of
   the two fallible calls is injected explicitly; content is a character
   list. -/

/-- Outcome of the open/write calls: success, open() raising OSError, or
writexml raising OSError after k characters were written. -/
inductive WriteOutcome where
  | success
  | openFail
  | writeFail (k : Nat)
deriving Repr, DecidableEq

/-- BookMetadata.write: returns the destination content after the call
(none = no destination file) and whether a warning was logged. -/
def bookMetadataWrite (doc : Option (List Char)) (outcome : WriteOutcome)
    (dst : Option (List Char)) : Option (List Char) × Bool :=
  match doc with
  | none => (dst, false)
  | some content =>
    match outcome with
    | WriteOutcome.success => (some content, false)
    | WriteOutcome.openFail => (dst, true)
    | WriteOutcome.writeFail k => (some (content.take k), true)

/-- C5 counterexample: a write that fails during serialization logs the
warning but leaves the destination truncated, not with its previous
content - the claim that a failed write leaves the destination
unmodified is false. -/
theorem metadata_write_modified_cex :
    (bookMetadataWrite (some ['n', 'e', 'w']) (WriteOutcome.writeFail 0)
      (some ['o', 'l', 'd'])).2 = true ∧
    (bookMetadataWrite (some ['n', 'e', 'w']) (WriteOutcome.writeFail 0)
      (some ['o', 'l', 'd'])).1 ≠ some ['o', 'l', 'd'] := by
  constructor
  · rfl
  · intro h
    simp [bookMetadataWrite] at h

/-- C5 (amended): with no loaded document the call is a no-op; when the
open call fails a warning is logged and the destination is unmodified;
when serialization fails after the successful (truncating) open a warning
is logged and the destination is left holding the prefix of the document
already written; a successful call replaces the destination content. -/
theorem metadata_write_behavior (doc dst : Option (List Char))
    (o : WriteOutcome) :
    (doc = none → bookMetadataWrite doc o dst = (dst, false)) ∧
    (∀ c, doc = some c →
      bookMetadataWrite doc WriteOutcome.openFail dst = (dst, true)) ∧
    (∀ c k, doc = some c →
      bookMetadataWrite doc (WriteOutcome.writeFail k) dst =
        (some (c.take k), true)) ∧
    (∀ c, doc = some c →
      bookMetadataWrite doc WriteOutcome.success dst = (some c, false)) := by
  refine ⟨fun h => ?_, fun c h => ?_, fun c k h => ?_, fun c h => ?_⟩
  · rw [h]; rfl
  · rw [h]; rfl
  · rw [h]; rfl
  · rw [h]; rfl

/-- Witness for the amended C5: a failed open leaves the old content and
logs the warning. -/
theorem metadata_write_behavior_witness :
    bookMetadataWrite (some ['n']) WriteOutcome.openFail (some ['o']) =
      (some ['o'], true) :=
  (metadata_write_behavior (some ['n']) (some ['o'])
    WriteOutcome.openFail).2.1 ['n'] rfl

/- ----------------------------------------------------------------
   Book.find_book and Book.do  (lines 502-516 and 684-745)
   ---------------------------------------------------------------- -/

/-- Glob pattern '*.ext' of pathlib (fnmatch semantics): the file name
ends with ".ext". -/
def globStarDot (ext : String) (nm : String) : Bool :=
  List.isSuffixOf ("." ++ ext).data nm.data

/-- Book.find_book (lines 502-516): first configured extension, in
precedence order, whose pattern matches some file of the source book
folder; within one extension the first match in listing order wins. -/
def find_book (types : List String) (files : List String) : Option String :=
  types.findSome? (fun ext => (files.filter (globStarDot ext)).head?)

/-- Construct-level context of Book.do: selection mode, parsed subject
query, and the command-line flags. -/
structure DoCtx where
  selection_mode : String
  subjectsQuery : List (List String)
  listSpec : Bool
  dryrun : Bool
  updateAll : Bool
deriving Repr, DecidableEq

/-- Book.do (lines 684-745): early return with an optional warning when
no book file was found; metadata warning; subject-mode filtering; list
mode; cover/title/creator warnings; dry run; then the three sync steps.
Returns the destination state, the writes performed and the warnings
logged. -/
def bookDo (ctx : DoCtx) (bookFound metaSrcFound docLoaded : Bool)
    (hasTitle hasAuthor : Bool) (bookSubjects : List String)
    (s : SrcBook) (st : FsSt) (now : Nat) :
    FsSt × List Eff × List String :=
  if bookFound = false then
    (st, [],
      if ctx.selection_mode = "author" ∨ ctx.selection_mode = "all" then
        ["No book file of configured type was found"]
      else [])
  else
    let w1 : List String :=
      if metaSrcFound then [] else ["No metadata was found"]
    if ctx.selection_mode = "subject" ∧ docLoaded = false then (st, [], w1)
    else if ctx.selection_mode = "subject" ∧
        (check_subjects bookSubjects ctx.subjectsQuery).isNone then
      (st, [], w1)
    else if ctx.listSpec then (st, [], w1)
    else
      let w2 := w1 ++
        (if s.hasCover then [] else ["No cover image was found"]) ++
        (if docLoaded && !hasTitle then ["Missing dc:title"] else []) ++
        (if docLoaded && !hasAuthor then ["Missing dc:creator"] else [])
      if ctx.dryrun then (st, [], w2)
      else
        let r := runBook s ctx.updateAll st now
        (r.1, r.2, w2)

/-- C9: a source book folder with no file of any configured type yields
find_book = none, and Book.do then performs no side effect at all - state
unchanged, no writes - logging the no-book warning exactly when the
selection mode is author or all, and skipping silently otherwise (in
particular in subject mode). -/
theorem no_book_file_no_side_effects (ctx : DoCtx)
    (types files : List String)
    (metaSrcFound docLoaded hasTitle hasAuthor : Bool)
    (bookSubjects : List String) (s : SrcBook) (st : FsSt) (now : Nat)
    (h : ∀ f ∈ files, ∀ ext ∈ types, globStarDot ext f = false) :
    find_book types files = none ∧
    bookDo ctx (find_book types files).isSome metaSrcFound docLoaded
        hasTitle hasAuthor bookSubjects s st now =
      (st, [],
        if ctx.selection_mode = "author" ∨ ctx.selection_mode = "all" then
          ["No book file of configured type was found"]
        else []) := by
  have hfb : find_book types files = none := by
    rw [find_book, List.findSome?_eq_none_iff]
    intro ext hext
    have hfil : files.filter (globStarDot ext) = [] := by
      rw [List.filter_eq_nil_iff]
      intro f hf
      rw [h f hf ext hext]
      simp
    rw [hfil]
    rfl
  refine ⟨hfb, ?_⟩
  rw [hfb]
  rw [bookDo, if_pos (show (none : Option String).isSome = false from rfl)]

/-- Witness for C9: a folder with only notes.txt, configured type epub,
subject mode - silent skip, no state change, no writes. -/
theorem no_book_file_no_side_effects_witness :
    bookDo ⟨"subject", [["x"]], false, false, false⟩
        (find_book ["epub"] ["notes.txt"]).isSome true true true true ["x"]
        ⟨0, false, 0, false, 0⟩ ⟨false, ⟨false, 0⟩, ⟨false, 0⟩, ⟨false, 0⟩⟩
        0 =
      (⟨false, ⟨false, 0⟩, ⟨false, 0⟩, ⟨false, 0⟩⟩, [], []) := by
  have h := (no_book_file_no_side_effects
    ⟨"subject", [["x"]], false, false, false⟩ ["epub"] ["notes.txt"]
    true true true true ["x"] ⟨0, false, 0, false, 0⟩
    ⟨false, ⟨false, 0⟩, ⟨false, 0⟩, ⟨false, 0⟩⟩ 0 (by decide)).2
  rw [h]
  decide

/- ----------------------------------------------------------------
   Construct.do_books_all / do_books_by_author  (lines 153-203)
   ---------------------------------------------------------------- -/

/-- A directory entry inside an author folder. -/
structure DirEntry where
  name : String
  isDir : Bool
deriving Repr, DecidableEq

/-- A top-level entry of the Calibre store with its listed children. -/
structure AuthorEntry where
  name : String
  isDir : Bool
  children : List DirEntry
deriving Repr, DecidableEq

/-- Python's name[0:1] == '.' hidden-name test of line 193. -/
def pyStartsDot (s : String) : Bool :=
  match s.data with
  | [] => false
  | c :: _ => c = '.'

/-- Construct.do_books_all (lines 182-203): skip store entries that are
not directories or whose name begins with a dot; process every directory
entry inside the rest.  The output lists the (author folder, book folder)
pairs examined. -/
def do_books_all (store : List AuthorEntry) : List (String × String) :=
  store.foldr (fun a acc =>
    (if a.isDir && !(pyStartsDot a.name) then
      (a.children.filter (fun b => b.isDir)).map (fun b => (a.name, b.name))
     else []) ++ acc) []

/-- One configured author folder of Construct.do_books_by_author (lines
162-180): a missing or non-directory folder logs a warning and is
skipped; otherwise every directory entry inside is processed.  No
hidden-name test is applied. -/
def authorStep (af : String) (store : List AuthorEntry)
    (acc : List (String × String) × List String) :
    List (String × String) × List String :=
  match store.find? (fun e => e.name = af) with
  | some a =>
    if a.isDir then
      ((a.children.filter (fun b => b.isDir)).map (fun b => (af, b.name))
        ++ acc.1, acc.2)
    else (acc.1, ("Author folder does not exist: " ++ af) :: acc.2)
  | none => (acc.1, ("Author folder does not exist: " ++ af) :: acc.2)

/-- Construct.do_books_by_author over the configured author list. -/
def do_books_by_author (authorFolders : List String)
    (store : List AuthorEntry) : List (String × String) × List String :=
  authorFolders.foldr (fun af acc => authorStep af store acc) ([], [])

/-- Unfolding do_books_all over one store entry. -/
theorem do_books_all_cons (a : AuthorEntry) (rest : List AuthorEntry) :
    do_books_all (a :: rest) =
      (if a.isDir && !(pyStartsDot a.name) then
        (a.children.filter (fun b => b.isDir)).map (fun b => (a.name, b.name))
       else []) ++ do_books_all rest := rfl

/-- C10: in all/subject selection modes every non-directory or
dot-prefixed top-level entry is skipped entirely (removing them from the
store does not change the examined books), while an explicitly configured
author folder is processed whenever it exists as a directory, with no
hidden-name filter. -/
theorem hidden_folders_skipped :
    (∀ store : List AuthorEntry,
      do_books_all store =
        do_books_all (store.filter
          (fun a => a.isDir && !(pyStartsDot a.name)))) ∧
    (∀ (store : List AuthorEntry) (af : String) (a : AuthorEntry),
      store.find? (fun e => e.name = af) = some a → a.isDir = true →
      (do_books_by_author [af] store).1 =
        (a.children.filter (fun b => b.isDir)).map
          (fun b => (af, b.name))) := by
  constructor
  · intro store
    induction store with
    | nil => rfl
    | cons a rest ih =>
      by_cases hc : (a.isDir && !(pyStartsDot a.name)) = true
      · rw [do_books_all_cons,
          @List.filter_cons_of_pos AuthorEntry
            (fun x => x.isDir && !(pyStartsDot x.name)) a rest hc,
          do_books_all_cons, ih]
      · rw [do_books_all_cons,
          @List.filter_cons_of_neg AuthorEntry
            (fun x => x.isDir && !(pyStartsDot x.name)) a rest hc,
          if_neg hc, List.nil_append, ih]
  · intro store af a hfind hdir
    have h0 : do_books_by_author [af] store = authorStep af store ([], []) :=
      rfl
    rw [h0]
    unfold authorStep
    simp only [hfind]
    rw [if_pos hdir]
    simp

/-- Witness for C10: a dot-named directory is skipped by the whole-store
scan but processed when configured explicitly as an author folder. -/
theorem hidden_folders_skipped_witness :
    do_books_all [⟨".hidden", true, [⟨"b1", true⟩]⟩] = [] ∧
    (do_books_by_author [".hidden"]
        [⟨".hidden", true, [⟨"b1", true⟩]⟩]).1 = [(".hidden", "b1")] := by
  constructor
  · have h1 := hidden_folders_skipped.1 [⟨".hidden", true, [⟨"b1", true⟩]⟩]
    rw [h1]
    decide
  · have h2 := hidden_folders_skipped.2 [⟨".hidden", true, [⟨"b1", true⟩]⟩]
      ".hidden" ⟨".hidden", true, [⟨"b1", true⟩]⟩ (by decide) rfl
    rw [h2]
    decide

end C2J
